import Mathlib

/-!
Verification of the pgopher backup lifecycle coordinator.

This file gives a shallow embedding of the parts of the pgopher source
relevant to its specification: the short-ID hashing used by the catalog
(crypto/sha256, encoding/hex and fmt formatting are modelled bit-exactly
over Nat bytes), the catalog local listing, the retention engine
(glob discovery, count-based and age-based pruning), the configuration
validation of the retention policy, the remote naming/versioning rules,
the restore file lock probe, failure handling in the local backup producer,
and the local scheduler fire guarded by the restore lock.

Machine integers are modelled as Nat/Int with explicit reduction modulo
2^32 where the SHA-256 compression function requires it.  File-system
effects are modelled by explicit state: a directory is a list of entries,
deletion success is an oracle predicate on paths, and the single artifact
file written by the backup producer is an optional size.
-/

/-! ## SHA-256 over byte lists (model of Go crypto/sha256)

The catalog derives short IDs from truncated SHA-256 digests, so the hash
is embedded as an executable function on lists of bytes (Nat below 256).
Words are Nat reduced modulo 2^32.
-/

def M32 : Nat := 4294967296

def add32 (a b : Nat) : Nat := (a + b) % M32

def rotr32 (n x : Nat) : Nat := ((x >>> n) ||| (x <<< (32 - n))) % M32

def not32 (x : Nat) : Nat := 4294967295 - x

def sha256K : List Nat :=
  [1116352408, 1899447441, 3049323471, 3921009573, 961987163,
   1508970993, 2453635748, 2870763221, 3624381080, 310598401,
   607225278, 1426881987, 1925078388, 2162078206, 2614888103,
   3248222580, 3835390401, 4022224774, 264347078, 604807628,
   770255983, 1249150122, 1555081692, 1996064986, 2554220882,
   2821834349, 2952996808, 3210313671, 3336571891, 3584528711,
   113926993, 338241895, 666307205, 773529912, 1294757372,
   1396182291, 1695183700, 1986661051, 2177026350, 2456956037,
   2730485921, 2820302411, 3259730800, 3345764771, 3516065817,
   3600352804, 4094571909, 275423344, 430227734, 506948616,
   659060556, 883997877, 958139571, 1322822218, 1537002063,
   1747873779, 1955562222, 2024104815, 2227730452, 2361852424,
   2428436474, 2756734187, 3204031479, 3329325298]

structure Sha256State where
  a : Nat
  b : Nat
  c : Nat
  d : Nat
  e : Nat
  f : Nat
  g : Nat
  h : Nat

def sha256H0 : Sha256State :=
  ⟨1779033703, 3144134277, 1013904242, 2773480762,
   1359893119, 2600822924, 528734635, 1541459225⟩

def bSig0 (x : Nat) : Nat := (rotr32 2 x) ^^^ (rotr32 13 x) ^^^ (rotr32 22 x)

def bSig1 (x : Nat) : Nat := (rotr32 6 x) ^^^ (rotr32 11 x) ^^^ (rotr32 25 x)

def sSig0 (x : Nat) : Nat := (rotr32 7 x) ^^^ (rotr32 18 x) ^^^ (x >>> 3)

def sSig1 (x : Nat) : Nat := (rotr32 17 x) ^^^ (rotr32 19 x) ^^^ (x >>> 10)

def chF (x y z : Nat) : Nat := (x &&& y) ^^^ ((not32 x) &&& z)

def majF (x y z : Nat) : Nat := (x &&& y) ^^^ (x &&& z) ^^^ (y &&& z)

/-- Extend the message schedule, kept in reverse order, by `fuel` further words. -/
def extendW : Nat → List Nat → List Nat
  | 0, w => w
  | n + 1, w =>
      let t2 := w.getD 1 0
      let t7 := w.getD 6 0
      let t15 := w.getD 14 0
      let t16 := w.getD 15 0
      extendW n (add32 (add32 (sSig1 t2) t7) (add32 (sSig0 t15) t16) :: w)

def sha256Round (s : Sha256State) (kw : Nat × Nat) : Sha256State :=
  let t1 := add32 s.h (add32 (add32 (bSig1 s.e) (chF s.e s.f s.g)) (add32 kw.1 kw.2))
  let t2 := add32 (bSig0 s.a) (majF s.a s.b s.c)
  ⟨add32 t1 t2, s.a, s.b, s.c, add32 s.d t1, s.e, s.f, s.g⟩

def addStates (x y : Sha256State) : Sha256State :=
  ⟨add32 x.a y.a, add32 x.b y.b, add32 x.c y.c, add32 x.d y.d,
   add32 x.e y.e, add32 x.f y.f, add32 x.g y.g, add32 x.h y.h⟩

/-- Group bytes (big-endian) into 32-bit words, four bytes each. -/
def bytesToWords : List Nat → List Nat
  | b0 :: b1 :: b2 :: b3 :: rest =>
      (((b0 <<< 24) ||| (b1 <<< 16)) ||| ((b2 <<< 8) ||| b3)) :: bytesToWords rest
  | _ => []

def sha256Block (s : Sha256State) (block : List Nat) : Sha256State :=
  let w16 := bytesToWords block
  let wRev := extendW 48 w16.reverse
  let w := wRev.reverse
  addStates s ((sha256K.zip w).foldl sha256Round s)

/-- Split a byte list into 64-byte chunks; the fuel argument keeps the
recursion structural so the kernel can evaluate it. -/
def chunk64Aux : Nat → List Nat → List (List Nat)
  | 0, _ => []
  | _, [] => []
  | fuel + 1, b :: bs => ((b :: bs).take 64) :: chunk64Aux fuel ((b :: bs).drop 64)

def chunk64 (bs : List Nat) : List (List Nat) := chunk64Aux bs.length bs

def be64 (n : Nat) : List Nat :=
  [(n >>> 56) % 256, (n >>> 48) % 256, (n >>> 40) % 256, (n >>> 32) % 256,
   (n >>> 24) % 256, (n >>> 16) % 256, (n >>> 8) % 256, n % 256]

def sha256Pad (msg : List Nat) : List Nat :=
  let l := msg.length
  let padLen := (64 - ((l + 9) % 64)) % 64
  msg ++ (128 :: List.replicate padLen 0) ++ be64 (8 * l)

def word32Bytes (n : Nat) : List Nat :=
  [(n >>> 24) % 256, (n >>> 16) % 256, (n >>> 8) % 256, n % 256]

/-- SHA-256 digest of a byte list, as its 32 bytes. -/
def sha256 (msg : List Nat) : List Nat :=
  let s := (chunk64 (sha256Pad msg)).foldl sha256Block sha256H0
  word32Bytes s.a ++ word32Bytes s.b ++ word32Bytes s.c ++ word32Bytes s.d ++
  word32Bytes s.e ++ word32Bytes s.f ++ word32Bytes s.g ++ word32Bytes s.h

/-! ## Hex encoding and UTF-8 bytes (models of encoding/hex and Go string bytes) -/

def hexDigit (n : Nat) : Char :=
  if n < 10 then Char.ofNat (48 + n) else Char.ofNat (87 + n)

def hexByte (n : Nat) : List Char := [hexDigit (n / 16), hexDigit (n % 16)]

def hexEncode (bs : List Nat) : String := ⟨(bs.map hexByte).flatten⟩

/-- UTF-8 encoding of a character codepoint, as Go produces for a byte slice
conversion of a string. -/
def utf8Char (c : Nat) : List Nat :=
  if c < 0x80 then [c]
  else if c < 0x800 then [0xC0 ||| (c >>> 6), 0x80 ||| (c &&& 0x3F)]
  else if c < 0x10000 then
    [0xE0 ||| (c >>> 12), 0x80 ||| ((c >>> 6) &&& 0x3F), 0x80 ||| (c &&& 0x3F)]
  else
    [0xF0 ||| (c >>> 18), 0x80 ||| ((c >>> 12) &&& 0x3F),
     0x80 ||| ((c >>> 6) &&& 0x3F), 0x80 ||| (c &&& 0x3F)]

def strBytes (s : String) : List Nat := (s.data.map (fun c => utf8Char c.toNat)).flatten

/-- Suffix test on strings, by characters (model of strings.HasSuffix; the
suffix test of the standard library is avoided because its loop does not reduce
in the kernel). -/
def goHasSuffix (s pat : String) : Bool :=
  List.isPrefixOf pat.data.reverse s.data.reverse

/-! ## utils (internal/utils/cli.go)

IsFileBackup accepts any name ending in ".age" or ".gz".
GenerateShortID hashes "name-unixSeconds" and keeps the first four digest
bytes as eight hex characters.  Time is modelled by its Unix seconds as Int
(Go passes time.Time and calls .Unix()).
-/

def IsFileBackup (name : String) : Bool :=
  if ¬ goHasSuffix name ".age" ∧ ¬ goHasSuffix name ".gz" then false else true

def GenerateShortID (name : String) (unixTime : Int) : String :=
  hexEncode ((sha256 (strBytes (name ++ "-" ++ toString unixTime))).take 4)

/-! ## Catalog (internal/catalog)

The repository contains two catalog variants.  One variant derives the
short ID with utils.GenerateShortID from (name, modTime); the other has a
method Catalog.generateShortID hashing the name with a fixed salt, ignoring
the modification time; its listLocal passes only the entry name.
-/

/-- Short-ID computation of the salted catalog variant: sha256 of the name
concatenated with the fixed salt, first four bytes hex encoded.  It takes no
modification time input. -/
def Catalog.generateShortID (name : String) : String :=
  hexEncode ((sha256 (strBytes (name ++ "pgopher-salt"))).take 4)

/-- A directory entry as returned by os.ReadDir: name, directory flag, and
the stat information (size and modification time in Unix seconds). -/
structure DirEntry where
  name : String
  isDir : Bool
  size : Int
  modTime : Int
deriving DecidableEq

/-- A backup artifact as produced by a catalog listing.  The source stores a
display form of the modification time; the raw Unix seconds used to derive
it (and fed to the short-ID hash) are kept here. -/
structure Catalog.BackupFile where
  ShortID : String
  Name : String
  Size : Int
  ModTime : Int
  Encrypted : Bool
deriving DecidableEq

/-- Local catalog listing of the variant using utils.GenerateShortID: skip
subdirectories, skip names rejected by IsFileBackup, mark Encrypted by the
".age" suffix. -/
def Catalog.listLocal (entries : List DirEntry) : List Catalog.BackupFile :=
  (entries.filter (fun e => ¬ e.isDir ∧ IsFileBackup e.name)).map
    (fun e => ⟨GenerateShortID e.name e.modTime, e.name, e.size, e.modTime,
               goHasSuffix e.name ".age"⟩)

/-- Local catalog listing of the salted variant: identical filtering, but
the short ID is Catalog.generateShortID of the name alone. -/
def Catalog.listLocalSalted (entries : List DirEntry) : List Catalog.BackupFile :=
  (entries.filter (fun e => ¬ e.isDir ∧ IsFileBackup e.name)).map
    (fun e => ⟨Catalog.generateShortID e.name, e.name, e.size, e.modTime,
               goHasSuffix e.name ".age"⟩)

/-! ## Retention engine (internal/retention)

Discovery uses filepath.Glob with the pattern
outputDir/databaseName-*.sql.gz* and sorts candidates ascending by
modification time.  The directory is modelled as a list of file records;
deletion success of os.Remove is an oracle predicate on paths, since a
failed deletion is logged and skipped.
-/

/-- A file in the output directory as seen by glob discovery plus os.Stat. -/
structure FsFile where
  name : String
  modTime : Int
  size : Int
deriving DecidableEq

/-- A retention candidate: full path, modification time (Unix seconds) and
byte size. -/
structure Retention.BackupFile where
  Path : String
  ModTime : Int
  Size : Int
deriving DecidableEq

/-- Glob matching for patterns made of literal characters and the star
wildcard, which matches any run of non-separator characters — the fragment
of filepath.Match semantics exercised by the retention pattern.  The fuel
argument keeps the recursion structural; fuel at least
pattern length + name length + 1 is enough. -/
def globMatchAux : Nat → List Char → List Char → Bool
  | 0, _, _ => false
  | _ + 1, [], name => name.isEmpty
  | f + 1, p :: ps, name =>
      if p = '*' then
        match name with
        | [] => globMatchAux f ps []
        | c :: ns =>
            globMatchAux f ps (c :: ns) || (c ≠ '/' && globMatchAux f (p :: ps) ns)
      else
        match name with
        | [] => false
        | c :: ns => p = c && globMatchAux f ps ns

def globMatch (pattern name : List Char) : Bool :=
  globMatchAux (pattern.length + name.length + 1) pattern name

/-- The glob pattern findBackups builds for a database name:
databaseName-*.sql.gz* as a character list. -/
def retentionPattern (databaseName : String) : List Char :=
  databaseName.data ++ '-' :: '*' :: (".sql.gz").data ++ ['*']

/-- Insert a candidate into a list sorted ascending by modification time. -/
def insertByModTime (b : Retention.BackupFile) :
    List Retention.BackupFile → List Retention.BackupFile
  | [] => [b]
  | x :: xs =>
      if x.ModTime ≤ b.ModTime then x :: insertByModTime b xs
      else b :: x :: xs

/-- Sort candidates ascending by modification time (model of sort.Sort with
Less given by ModTime.Before). -/
def sortByModTime : List Retention.BackupFile → List Retention.BackupFile
  | [] => []
  | x :: xs => insertByModTime x (sortByModTime xs)

/-- Path join for a directory and a base name (model of filepath.Join for a
clean directory path). -/
def joinPath (dir name : String) : String := dir ++ "/" ++ name

/-- The retention policy configuration: two optional integers, modelling the
nullable pointer fields of RetentionConfig. -/
structure RetentionConfig where
  RetentionDays : Option Int
  MaxBackups : Option Int

def RetentionConfig.HasRetentionDays (r : RetentionConfig) : Bool :=
  r.RetentionDays.isSome

def RetentionConfig.HasMaxBackups (r : RetentionConfig) : Bool :=
  r.MaxBackups.isSome

/-- Options of the local retention engine. -/
structure Retention.Options where
  Retention : RetentionConfig
  OutputDir : String
  DatabaseName : String

def Retention.Options.HasRetention (o : Retention.Options) : Bool :=
  o.Retention.HasMaxBackups || o.Retention.HasRetentionDays

/-- Candidate discovery: glob the output directory for
databaseName-*.sql.gz*, stat each match, and sort ascending by modification
time.  The listing argument holds the entries of the output directory. -/
def Retention.findBackups (opt : Retention.Options) (listing : List FsFile) :
    List Retention.BackupFile :=
  let hits := listing.filter
    (fun f => globMatch (retentionPattern opt.DatabaseName) f.name.data)
  sortByModTime (hits.map (fun f => ⟨joinPath opt.OutputDir f.name, f.modTime, f.size⟩))

/-- Count-based pruning: keep the newest maxBackups candidates, attempt to
delete the older ones in order, and report those actually deleted
(removeOk models the success of os.Remove; a failed deletion is skipped). -/
def Retention.cleanByCount (removeOk : String → Bool)
    (backups : List Retention.BackupFile) (maxBackups : Int) :
    List Retention.BackupFile :=
  if (backups.length : Int) < maxBackups then []
  else
    (backups.take (((backups.length : Int) - maxBackups).toNat)).filter
      (fun b => removeOk b.Path)

/-- Age-based pruning: candidates whose modification time is strictly before
now minus retentionDays days are deleted; one day is 86400 seconds.  When no
candidate qualifies nothing is removed. -/
def Retention.cleanByDays (removeOk : String → Bool)
    (backups : List Retention.BackupFile) (retentionDays : Int) (now : Int) :
    List Retention.BackupFile :=
  let cutoff := now - retentionDays * 86400
  let old := backups.filter (fun b => b.ModTime < cutoff)
  if old.length ≤ 0 then []
  else old.filter (fun b => removeOk b.Path)

/-- The set of files a retention run removes: nothing without a policy or
without candidates; otherwise the count policy if MaxBackups is set, else the
age policy if RetentionDays is set. -/
def Retention.run (opt : Retention.Options) (listing : List FsFile)
    (removeOk : String → Bool) (now : Int) : List Retention.BackupFile :=
  if ¬ opt.HasRetention then []
  else
    let backups := Retention.findBackups opt listing
    if backups.length = 0 then []
    else
      match opt.Retention.MaxBackups with
      | some m => Retention.cleanByCount removeOk backups m
      | none =>
        match opt.Retention.RetentionDays with
        | some d => Retention.cleanByDays removeOk backups d now
        | none => []

/-! ## Configuration validation (internal/config)

validateLocalBackup checks the backup directory, every schedule string, and
the retention combination; setting both RETENTION_DAYS and BACKUP_LIMIT is
rejected.  Errors are modelled as an optional message.
-/

/-- Substring test on character lists (model of strings.Contains). -/
def hasSubstr (pat : List Char) : List Char → Bool
  | [] => pat.isEmpty
  | c :: cs => (List.take pat.length (c :: cs) = pat : Bool) || hasSubstr pat cs

/-- Validity of an HH:MM wall-clock string, per the validation regular
expression: two digits 00..23, a colon, two digits 00..59. -/
def isValidTimeFormat (timeStr : String) : Bool :=
  match timeStr.data with
  | [h1, h2, c, m1, m2] =>
      c = ':' &&
      ((('0' ≤ h1 ∧ h1 ≤ '1') ∧ ('0' ≤ h2 ∧ h2 ≤ '9')) ∨
        (h1 = '2' ∧ ('0' ≤ h2 ∧ h2 ≤ '3')) : Bool) &&
      ('0' ≤ m1 ∧ m1 ≤ '5' : Bool) && ('0' ≤ m2 ∧ m2 ≤ '9' : Bool)
  | _ => false

/-- Local backup section of the configuration. -/
structure LocalBackupConfig where
  Dir : String
  Schedule : List String
  Retention : RetentionConfig
  Enabled : Bool

/-- Validation of the local backup configuration; the result is the first
error found, none when the configuration is accepted. -/
def Config.validateLocalBackup (lb : LocalBackupConfig) : Option String :=
  if lb.Dir.trim = "" then some "BACKUP_DIR is required"
  else if hasSubstr ('.' :: ['.']) lb.Dir.data then
    some "BACKUP_DIR cannot contain dots"
  else if lb.Schedule.any (fun s => ¬ isValidTimeFormat s) then
    some "invalid schedule format, expected HH:MM"
  else if lb.Retention.HasRetentionDays && lb.Retention.HasMaxBackups then
    some "cannot use both RETENTION_DAYS and BACKUP_LIMIT simultaneously, choose one"
  else if lb.Retention.HasRetentionDays &&
      (lb.Retention.RetentionDays.getD 0 < 1 : Bool) then
    some "RETENTION_DAYS must be >= 1"
  else if lb.Retention.HasMaxBackups &&
      (lb.Retention.MaxBackups.getD 0 < 1 : Bool) then
    some "BACKUP_LIMIT must be >= 1"
  else none

/-! ## Remote naming and versioning (internal/remote)

GetRemoteFileName computes the artifact name from the database name, the
version counter and the encryption setting; RemotePathFor joins the
path prefix of the provider with the file name.
-/

/-- Remote provider options; only the fields the naming contract reads. -/
structure Remote.Options where
  Name : String
  Path : String
  MaxVersions : Int
  DatabaseName : String
  EncryptionKey : String

def Remote.Options.HasVersioning (o : Remote.Options) : Bool :=
  o.MaxVersions > 0

/-- Remote artifact name: extension ".sql.gz", with ".age" appended when an
encryption key is configured; the version counter is embedded when
MaxVersions is positive, otherwise the single overwriting name is used. -/
def Remote.Options.GetRemoteFileName (o : Remote.Options) (currentVersion : Int) :
    String :=
  let ext := ".sql.gz" ++ (if o.EncryptionKey ≠ "" then ".age" else "")
  if o.HasVersioning then
    o.DatabaseName ++ "-v" ++ toString currentVersion ++ ext
  else
    o.DatabaseName ++ ext

/-- Remote object path: the path prefix joined with the file name by a
slash, or the file name alone when the prefix is empty. -/
def Remote.Options.RemotePathFor (o : Remote.Options) (fileName : String) : String :=
  if o.Path = "" then fileName else o.Path ++ "/" ++ fileName

/-! ## Restore file lock (internal/lock)

The advisory lock is a well-known lock file taken through flock.  Its state
is whether some other process holds it and whether this process holds it.
TryLock is non-blocking: it succeeds exactly when no other process holds the
lock (operating-system failures of the lock call, which the probe also
reports as held, are outside the state model).
-/

structure FlockState where
  heldByOther : Bool
  heldBySelf : Bool

/-- Non-blocking acquisition attempt: returns whether the lock was obtained,
and the resulting state. -/
def FlockState.tryLock (s : FlockState) : Bool × FlockState :=
  if s.heldByOther then (false, s) else (true, ⟨s.heldByOther, true⟩)

/-- Release of the lock held by this process. -/
def FlockState.unlock (s : FlockState) : FlockState :=
  ⟨s.heldByOther, false⟩

/-- The restore probe: try a non-blocking acquire; on failure report the
lock as held; on success release at once and report it as free.  Returns the
report and the lock state after the probe. -/
def FileLock.IsRestoreRunning (s : FlockState) : Bool × FlockState :=
  let r := s.tryLock
  if ¬ r.1 then (true, r.2) else (false, r.2.unlock)

/-! ## Local backup producer (internal/backup)

Run creates the output directory, names the artifact (appending ".age" when
encryption is on), streams the dump through the writer chain into the
artifact file, deletes the file when the dump process fails, and deletes it
and fails when the resulting file is empty.  The environment records which
fallible steps succeed and how many bytes end up in the artifact.
-/

/-- Options of the backup producer: the output directory, the name the
naming function produced, and the encryption key. -/
structure Backup.Options where
  OutputDir : String
  FileName : String
  EncryptionKey : String

def Backup.Options.IsEncryptEnabled (o : Backup.Options) : Bool :=
  o.EncryptionKey ≠ ""

/-- Environment of one backup run: success of directory creation, of
os.Create, of the writer-chain and process setup (encryptor construction,
age writer, stderr pipe, process start — each failure there returns early
with the created file left in place), the dump process exit status, and the
bytes present in the artifact when the run completes. -/
structure BackupEnv where
  mkdirOk : Bool
  createOk : Bool
  setupOk : Bool
  dumpExitOk : Bool
  written : Nat

/-- Outcome of a backup run over the single artifact path: the artifact file
state on disk (none when absent, some size when present), the error if any,
and whether the file was created and the dump process started. -/
structure BackupOutcome where
  fileSize : Option Nat
  err : Option String
  created : Bool
  dumpStarted : Bool

/-- The dump execution step: create the artifact file, build the writer
chain, run the process; on a process failure delete the file and return the
wrapped process error. -/
def Backup.executePgDump (opt : Backup.Options) (env : BackupEnv) : BackupOutcome :=
  if ¬ env.createOk then ⟨none, some "create artifact failed", false, false⟩
  else if opt.IsEncryptEnabled ∧ ¬ env.setupOk then
    ⟨some 0, some "failed to create age writer", true, false⟩
  else if ¬ env.setupOk then ⟨some 0, some "failed to start pg_dump", true, false⟩
  else if ¬ env.dumpExitOk then ⟨none, some "pg_dump failed: exit status 1", true, true⟩
  else ⟨some env.written, none, true, true⟩

/-- The full producer run: ensure the directory, run the dump step wrapping
its error, then stat the artifact and reject an empty file by deleting it
and returning an error. -/
def Backup.run (opt : Backup.Options) (env : BackupEnv) : BackupOutcome :=
  if ¬ env.mkdirOk then
    ⟨none, some "failed to create backup directory", false, false⟩
  else
    let e := Backup.executePgDump opt env
    match e.err with
    | some msg => ⟨e.fileSize, some ("pg_dump failed: " ++ msg), e.created, e.dumpStarted⟩
    | none =>
      if e.fileSize = some 0 then
        ⟨none, some "backup file is empty", e.created, e.dumpStarted⟩
      else
        ⟨e.fileSize, none, e.created, e.dumpStarted⟩

/-! ## Scheduler local fire (internal/scheduler)

runLocalBackup first probes the restore lock and skips the fire when it is
held; otherwise it increments the running-job counter, runs the producer
under a deadline, and decrements the counter on every exit path.
-/

/-- Observable result of one scheduled local fire: the running-job counter
after the fire, whether the counter was touched at all during the fire, and
whether a dump process was started and an artifact file created. -/
structure FireResult where
  runningAfter : Int
  counterTouched : Bool
  dumpStarted : Bool
  fileCreated : Bool

/-- One scheduled local fire: skip when the restore probe reports held,
otherwise run the backup between a counter increment and the deferred
decrement. -/
def Scheduler.runLocalBackup (lockSt : FlockState) (running : Int)
    (opt : Backup.Options) (env : BackupEnv) : FireResult :=
  if (FileLock.IsRestoreRunning lockSt).1 then
    ⟨running, false, false, false⟩
  else
    let o := Backup.run opt env
    ⟨(running + 1) - 1, true, o.dumpStarted, o.created⟩

/-! ## Sanity: SHA-256 test vector

The digest of "abc" begins with bytes ba 78 16 bf, pinning the hash model to
the standard. -/

theorem sha256_abc_test_vector :
    hexEncode ((sha256 (strBytes "abc")).take 4) = "ba7816bf" := by decide

/-! ## Spec-side remote naming

Definitions following the words of the specification for the remote naming
contract, to be compared with the GetRemoteFileName and
RemotePathFor functions of the source. -/

/-- Modelled from the spec: the artifact extension is ".sql.gz" plus ".age"
exactly when encryption is configured. -/
def Spec.remoteExt (encryptionConfigured : Bool) : String :=
  if encryptionConfigured then ".sql.gz.age" else ".sql.gz"

/-- Modelled from the spec: embed the version counter when rotation is
enabled, otherwise use the single overwriting name. -/
def Spec.remoteFileName (name : String) (rotationVersion : Option Int)
    (encryptionConfigured : Bool) : String :=
  match rotationVersion with
  | some n => name ++ "-v" ++ toString n ++ Spec.remoteExt encryptionConfigured
  | none => name ++ Spec.remoteExt encryptionConfigured

/-- Modelled from the spec: the remote path is the path prefix joined with
the file name, or the file name alone when the prefix is empty. -/
def Spec.remotePath (pathPfx fileName : String) : String :=
  if pathPfx = "" then fileName else pathPfx ++ "/" ++ fileName

/-- C8: for every remote naming computation, the file name produced by the
source equals the one of the spec: extension ".sql.gz" with ".age" appended exactly
when an encryption key is configured, version counter embedded as
name-v{N}.ext exactly when maxVersions is positive, and the remote path is
the path prefix joined with the file name, or the file name alone when the
prefix is empty. -/
theorem C8_remote_naming (o : Remote.Options) (v : Int) (fn : String) :
    o.GetRemoteFileName v =
      Spec.remoteFileName o.DatabaseName
        (if o.MaxVersions > 0 then some v else none) (o.EncryptionKey ≠ "") ∧
    o.RemotePathFor fn = Spec.remotePath o.Path fn := by
  constructor
  · unfold Remote.Options.GetRemoteFileName Spec.remoteFileName Spec.remoteExt
      Remote.Options.HasVersioning
    by_cases hv : o.MaxVersions > 0 <;> by_cases he : o.EncryptionKey ≠ "" <;>
      simp [hv, he]
  · unfold Remote.Options.RemotePathFor Spec.remotePath
    rfl

/-- C9: the restore-lock probe leaves the lock state unchanged: on an
unheld lock it reports false and the lock is unheld afterwards (the
transient acquire is released at once); with another holder it reports true
and the state is untouched (nothing was acquired). -/
theorem C9_probe_frame (s : FlockState) :
    (s.heldByOther = false → s.heldBySelf = false →
      FileLock.IsRestoreRunning s = (false, s)) ∧
    (s.heldByOther = true → FileLock.IsRestoreRunning s = (true, s)) := by
  obtain ⟨o, m⟩ := s
  constructor
  · rintro rfl rfl
    rfl
  · rintro rfl
    rfl

/-- Witness for C9 at the two concrete lock states. -/
theorem C9_probe_frame_witness :
    FileLock.IsRestoreRunning ⟨false, false⟩ = (false, ⟨false, false⟩) ∧
    FileLock.IsRestoreRunning ⟨true, false⟩ = (true, ⟨true, false⟩) :=
  ⟨(C9_probe_frame ⟨false, false⟩).1 rfl rfl, (C9_probe_frame ⟨true, false⟩).2 rfl⟩

/-- C6: a scheduled local fire that occurs while the restore probe reports
the lock as held is skipped: no dump process is started, no artifact file is
created, and the running-job counter is neither touched nor changed. -/
theorem C6_fire_skipped_under_lock (lockSt : FlockState) (running : Int)
    (opt : Backup.Options) (env : BackupEnv)
    (h : (FileLock.IsRestoreRunning lockSt).1 = true) :
    Scheduler.runLocalBackup lockSt running opt env =
      ⟨running, false, false, false⟩ := by
  unfold Scheduler.runLocalBackup
  rw [h]
  simp

/-- Witness for C6: a fire with the lock held by another process. -/
theorem C6_fire_skipped_under_lock_witness :
    Scheduler.runLocalBackup ⟨true, false⟩ 0 ⟨"/backups", "db.sql.gz", ""⟩
      ⟨true, true, true, true, 42⟩ = ⟨0, false, false, false⟩ :=
  C6_fire_skipped_under_lock ⟨true, false⟩ 0 ⟨"/backups", "db.sql.gz", ""⟩
    ⟨true, true, true, true, 42⟩ rfl

/-- C1: for a backup run whose directory creation, file creation and
process setup succeed, a dump process exiting non-zero leaves no artifact
file on disk and returns a wrapped error; and a run whose artifact file is
empty despite process success deletes the file and returns an error, so a
zero-byte backup is never reported successful. -/
theorem C1_backup_failure_cleanup (opt : Backup.Options) (env : BackupEnv)
    (hmk : env.mkdirOk = true) (hcr : env.createOk = true)
    (hs : env.setupOk = true) :
    (env.dumpExitOk = false →
      (Backup.run opt env).fileSize = none ∧
      (Backup.run opt env).err =
        some ("pg_dump failed: " ++ "pg_dump failed: exit status 1")) ∧
    (env.dumpExitOk = true → env.written = 0 →
      (Backup.run opt env).fileSize = none ∧
      (Backup.run opt env).err = some "backup file is empty") := by
  obtain ⟨mk, cr, su, ex, w⟩ := env
  simp only at hmk hcr hs
  subst hmk hcr hs
  constructor
  · rintro rfl
    constructor <;> simp [Backup.run, Backup.executePgDump]
  · rintro rfl rfl
    constructor <;> simp [Backup.run, Backup.executePgDump]

/-- Witness for C1: a failing dump leaves no file; an empty artifact after a
successful dump is deleted and reported as an error. -/
theorem C1_backup_failure_cleanup_witness :
    ((Backup.run ⟨"/backups", "db.sql.gz", ""⟩ ⟨true, true, true, false, 0⟩).fileSize = none ∧
      (Backup.run ⟨"/backups", "db.sql.gz", ""⟩ ⟨true, true, true, false, 0⟩).err =
        some ("pg_dump failed: " ++ "pg_dump failed: exit status 1")) ∧
    ((Backup.run ⟨"/backups", "db.sql.gz", ""⟩ ⟨true, true, true, true, 0⟩).fileSize = none ∧
      (Backup.run ⟨"/backups", "db.sql.gz", ""⟩ ⟨true, true, true, true, 0⟩).err =
        some "backup file is empty") :=
  ⟨(C1_backup_failure_cleanup ⟨"/backups", "db.sql.gz", ""⟩
      ⟨true, true, true, false, 0⟩ rfl rfl rfl).1 rfl,
   (C1_backup_failure_cleanup ⟨"/backups", "db.sql.gz", ""⟩
      ⟨true, true, true, true, 0⟩ rfl rfl rfl).2 rfl rfl⟩

/-! ## Retention theorems -/

/-- Deletion always succeeding makes the removal filter the identity. -/
theorem filter_removeOk_eq_self (ok : String → Bool) (hok : ∀ p, ok p = true)
    (l : List Retention.BackupFile) : l.filter (fun b => ok b.Path) = l :=
  List.filter_eq_self.mpr (fun a _ => hok a.Path)

/-- C3: under the keep-younger-than-D-days policy with all deletions
succeeding, the removed set is exactly the candidates strictly older than
the cutoff now minus D days; a candidate exactly at the cutoff is retained;
and when no candidate is strictly older than the cutoff nothing is
removed. -/
theorem C3_age_retention (ok : String → Bool)
    (backups : List Retention.BackupFile) (D now : Int)
    (hok : ∀ p, ok p = true) :
    Retention.cleanByDays ok backups D now =
      backups.filter (fun b => b.ModTime < now - D * 86400) ∧
    (∀ b ∈ backups, b.ModTime = now - D * 86400 →
      b ∉ Retention.cleanByDays ok backups D now) ∧
    ((∀ b ∈ backups, ¬ b.ModTime < now - D * 86400) →
      Retention.cleanByDays ok backups D now = []) := by
  have h1 : Retention.cleanByDays ok backups D now =
      backups.filter (fun b => b.ModTime < now - D * 86400) := by
    simp only [Retention.cleanByDays]
    split
    next h =>
      have hnil : backups.filter (fun b => decide (b.ModTime < now - D * 86400)) = [] :=
        List.length_eq_zero.mp (Nat.le_zero.mp h)
      exact hnil.symm
    next h => exact filter_removeOk_eq_self ok hok _
  refine ⟨h1, fun b _ heq hmem => ?_, fun hnone => ?_⟩
  · rw [h1] at hmem
    have hlt := (List.mem_filter.mp hmem).2
    rw [decide_eq_true_iff] at hlt
    omega
  · rw [h1]
    refine List.filter_eq_nil_iff.mpr (fun a ha => ?_)
    simpa using hnone a ha

/-- Witness for C3: with D seven days and two candidates aged ten days and
one day plus one exactly at the cutoff, only the ten-day-old candidate is
removed; the boundary candidate is retained. -/
theorem C3_age_retention_witness :
    Retention.cleanByDays (fun _ => true)
      [⟨"/b/db-old.sql.gz", 0, 10⟩, ⟨"/b/db-edge.sql.gz", 259200, 10⟩,
       ⟨"/b/db-new.sql.gz", 777600, 10⟩] 7 864000 =
      [⟨"/b/db-old.sql.gz", 0, 10⟩] :=
  Eq.trans
    (C3_age_retention (fun _ => true)
      [⟨"/b/db-old.sql.gz", 0, 10⟩, ⟨"/b/db-edge.sql.gz", 259200, 10⟩,
       ⟨"/b/db-new.sql.gz", 777600, 10⟩] 7 864000 (fun _ => rfl)).1
    (by decide)

/-- C2: under the keep-last-N policy with all deletions succeeding and the
candidates sorted ascending by modification time, at most N candidates
means nothing is removed; otherwise exactly the count minus N oldest
candidates are removed in order, and the N retained candidates are the
newest: every removed candidate is no newer than every retained one. -/
theorem C2_count_retention (ok : String → Bool)
    (backups : List Retention.BackupFile) (N : Int)
    (hok : ∀ p, ok p = true) (hN : 0 ≤ N)
    (hsorted : backups.Pairwise (fun a b => a.ModTime ≤ b.ModTime)) :
    ((backups.length : Int) ≤ N → Retention.cleanByCount ok backups N = []) ∧
    (N < (backups.length : Int) →
      Retention.cleanByCount ok backups N =
        backups.take (((backups.length : Int) - N).toNat) ∧
      ((Retention.cleanByCount ok backups N).length : Int) =
        (backups.length : Int) - N ∧
      ((backups.drop (((backups.length : Int) - N).toNat)).length : Int) = N ∧
      (∀ x ∈ Retention.cleanByCount ok backups N,
        ∀ y ∈ backups.drop (((backups.length : Int) - N).toNat),
          x.ModTime ≤ y.ModTime)) := by
  constructor
  · intro hle
    unfold Retention.cleanByCount
    split
    · rfl
    next h =>
      have hz : (((backups.length : Int) - N).toNat) = 0 := by omega
      rw [hz]
      simp
  · intro hlt
    have hcond : ¬ ((backups.length : Int) < N) := by omega
    have hEq : Retention.cleanByCount ok backups N =
        backups.take (((backups.length : Int) - N).toNat) := by
      unfold Retention.cleanByCount
      rw [if_neg hcond, filter_removeOk_eq_self ok hok]
    have hk : (((backups.length : Int) - N).toNat) ≤ backups.length := by omega
    refine ⟨hEq, ?_, ?_, ?_⟩
    · rw [hEq, List.length_take, Nat.min_eq_left hk]
      omega
    · rw [List.length_drop]
      omega
    · intro x hx y hy
      rw [hEq] at hx
      have hsp : List.Pairwise (fun a b => a.ModTime ≤ b.ModTime)
          (backups.take (((backups.length : Int) - N).toNat) ++
            backups.drop (((backups.length : Int) - N).toNat)) := by
        rw [List.take_append_drop]
        exact hsorted
      exact (List.pairwise_append.mp hsp).2.2 x hx y hy

/-- Witness for C2: five candidates with distinct ascending times and
keep-last three removes exactly the two oldest, oldest first. -/
theorem C2_count_retention_witness :
    Retention.cleanByCount (fun _ => true)
      [⟨"/b/db-1.sql.gz", 10, 1⟩, ⟨"/b/db-2.sql.gz", 20, 1⟩,
       ⟨"/b/db-3.sql.gz", 30, 1⟩, ⟨"/b/db-4.sql.gz", 40, 1⟩,
       ⟨"/b/db-5.sql.gz", 50, 1⟩] 3 =
      [⟨"/b/db-1.sql.gz", 10, 1⟩, ⟨"/b/db-2.sql.gz", 20, 1⟩] :=
  Eq.trans
    ((C2_count_retention (fun _ => true)
      [⟨"/b/db-1.sql.gz", 10, 1⟩, ⟨"/b/db-2.sql.gz", 20, 1⟩,
       ⟨"/b/db-3.sql.gz", 30, 1⟩, ⟨"/b/db-4.sql.gz", 40, 1⟩,
       ⟨"/b/db-5.sql.gz", 50, 1⟩] 3 (fun _ => rfl) (by decide)
      (by decide)).2 (by decide)).1
    (by decide)

/-! ## Single-policy theorems -/

/-- C7: a configuration setting both retention policies is rejected by
validation before any deletion, and a retention run consults only one
policy: with a backup-count limit set, the removed set is independent of the
retention-days setting and of the clock, and with only retention days set
the removed set is exactly that of the age policy. -/
theorem C7_single_policy :
    (∀ lb : LocalBackupConfig,
      lb.Retention.HasRetentionDays = true → lb.Retention.HasMaxBackups = true →
      (Config.validateLocalBackup lb).isSome = true) ∧
    (∀ (dn dir : String) (d1 d2 : Option Int) (m : Int) (listing : List FsFile)
        (ok : String → Bool) (now1 now2 : Int),
      Retention.run ⟨⟨d1, some m⟩, dir, dn⟩ listing ok now1 =
        Retention.run ⟨⟨d2, some m⟩, dir, dn⟩ listing ok now2) ∧
    (∀ (dn dir : String) (d : Int) (listing : List FsFile) (ok : String → Bool)
        (now : Int),
      Retention.run ⟨⟨some d, none⟩, dir, dn⟩ listing ok now =
        (if (Retention.findBackups ⟨⟨some d, none⟩, dir, dn⟩ listing).length = 0
         then []
         else Retention.cleanByDays ok
           (Retention.findBackups ⟨⟨some d, none⟩, dir, dn⟩ listing) d now)) := by
  refine ⟨fun lb h1 h2 => ?_, fun dn dir d1 d2 m listing ok now1 now2 => rfl,
    fun dn dir d listing ok now => rfl⟩
  unfold Config.validateLocalBackup
  split
  · rfl
  split
  · rfl
  split
  · rfl
  rw [h1, h2]
  simp

/-- Witness for C7: a configuration with both policies set is rejected; a
count-limited run is unchanged by the retention-days field and the clock; a
days-only run equals the age policy. -/
theorem C7_single_policy_witness :
    (Config.validateLocalBackup ⟨"/backups", ["03:00"], ⟨some 7, some 5⟩, true⟩).isSome
      = true ∧
    Retention.run ⟨⟨some 3, some 1⟩, "/b", "db"⟩ [⟨"db-1.sql.gz", 10, 5⟩]
        (fun _ => true) 0 =
      Retention.run ⟨⟨none, some 1⟩, "/b", "db"⟩ [⟨"db-1.sql.gz", 10, 5⟩]
        (fun _ => true) 99 ∧
    Retention.run ⟨⟨some 3, none⟩, "/b", "db"⟩ [] (fun _ => true) 0 =
      (if (Retention.findBackups ⟨⟨some 3, none⟩, "/b", "db"⟩ []).length = 0
       then []
       else Retention.cleanByDays (fun _ => true)
         (Retention.findBackups ⟨⟨some 3, none⟩, "/b", "db"⟩ []) 3 0) :=
  ⟨C7_single_policy.1 ⟨"/backups", ["03:00"], ⟨some 7, some 5⟩, true⟩ rfl rfl,
   C7_single_policy.2.1 "db" "/b" (some 3) none 1 [⟨"db-1.sql.gz", 10, 5⟩]
     (fun _ => true) 0 99,
   C7_single_policy.2.2 "db" "/b" 3 [] (fun _ => true) 0⟩

/-! ## Catalog listing theorems -/

/-- C5 counterexample: the claim that names without a full backup suffix
(.sql.gz or .sql.gz.age) are excluded from the local catalog listing fails:
the regular file "notes.gz" carries neither suffix yet is returned by the
listing, because the filter accepts any name ending in ".gz" or ".age". -/
theorem C5_catalog_filter_counterexample :
    (DirEntry.isDir ⟨"notes.gz", false, 7, 100⟩ = false) ∧
    goHasSuffix "notes.gz" ".sql.gz" = false ∧
    goHasSuffix "notes.gz" ".sql.gz.age" = false ∧
    (Catalog.listLocal [⟨"notes.gz", false, 7, 100⟩]).map (fun f => f.Name) =
      ["notes.gz"] :=
  ⟨rfl, by decide, by decide, rfl⟩

/-- C5 amended: every entry returned by the local catalog listing comes from
a non-directory entry whose name ends in ".gz" or ".age" (the filter accepts
these, not only the full backup suffixes), and its encrypted flag is true
exactly when the name ends in ".age". -/
theorem C5_catalog_filter_amended (entries : List DirEntry)
    (f : Catalog.BackupFile) (hf : f ∈ Catalog.listLocal entries) :
    ∃ e ∈ entries, e.isDir = false ∧ f.Name = e.name ∧
      (goHasSuffix f.Name ".age" = true ∨ goHasSuffix f.Name ".gz" = true) ∧
      (f.Encrypted = true ↔ goHasSuffix f.Name ".age" = true) := by
  unfold Catalog.listLocal at hf
  obtain ⟨e, he, rfl⟩ := List.mem_map.mp hf
  obtain ⟨hmem, hp⟩ := List.mem_filter.mp he
  rw [decide_eq_true_iff] at hp
  obtain ⟨hdir, hbk⟩ := hp
  refine ⟨e, hmem, by simpa using hdir, rfl, ?_, Iff.rfl⟩
  unfold IsFileBackup at hbk
  by_cases hcase : ¬ goHasSuffix e.name ".age" = true ∧ ¬ goHasSuffix e.name ".gz" = true
  · rw [if_pos hcase] at hbk
    exact absurd hbk (by simp)
  · tauto

/-- Witness for the amended C5 at a singleton directory. -/
theorem C5_catalog_filter_amended_witness :
    ∃ e ∈ [(⟨"db-1.sql.gz", false, 7, 100⟩ : DirEntry)],
      e.isDir = false ∧
      (⟨GenerateShortID "db-1.sql.gz" 100, "db-1.sql.gz", 7, 100, false⟩ :
          Catalog.BackupFile).Name = e.name ∧
      (goHasSuffix (⟨GenerateShortID "db-1.sql.gz" 100, "db-1.sql.gz", 7, 100, false⟩ :
          Catalog.BackupFile).Name ".age" = true ∨
        goHasSuffix (⟨GenerateShortID "db-1.sql.gz" 100, "db-1.sql.gz", 7, 100, false⟩ :
          Catalog.BackupFile).Name ".gz" = true) ∧
      ((⟨GenerateShortID "db-1.sql.gz" 100, "db-1.sql.gz", 7, 100, false⟩ :
          Catalog.BackupFile).Encrypted = true ↔
        goHasSuffix (⟨GenerateShortID "db-1.sql.gz" 100, "db-1.sql.gz", 7, 100, false⟩ :
          Catalog.BackupFile).Name ".age" = true) :=
  C5_catalog_filter_amended [⟨"db-1.sql.gz", false, 7, 100⟩]
    ⟨GenerateShortID "db-1.sql.gz" 100, "db-1.sql.gz", 7, 100, false⟩
    (List.Mem.head _)

/-! ## Short-ID theorems -/

/-- C4 counterexample: in the salted catalog variant the short ID is
computed from the name alone, so changing the modification time by one
second does not change the output, contrary to the claim. -/
theorem C4_shortid_counterexample :
    (Catalog.listLocalSalted [⟨"db-a.sql.gz", false, 5, 1000⟩]).map
        (fun f => f.ShortID) =
      (Catalog.listLocalSalted [⟨"db-a.sql.gz", false, 5, 1000 + 1⟩]).map
        (fun f => f.ShortID) := rfl

/-- C4 amended: both short-ID computations are deterministic functions of
their inputs; utils.GenerateShortID takes (name, modTime) and at the checked
input a one-second change of modTime changes its output, while the salted
catalog variant derives the short ID from the name alone, so a modTime
change never affects the short IDs in its listing. -/
theorem C4_shortid_amended :
    (∀ (n1 n2 : String) (t1 t2 : Int), n1 = n2 → t1 = t2 →
      GenerateShortID n1 t1 = GenerateShortID n2 t2) ∧
    (∀ (name : String) (d : Bool) (sz t1 t2 : Int),
      (Catalog.listLocalSalted [⟨name, d, sz, t1⟩]).map (fun f => f.ShortID) =
        (Catalog.listLocalSalted [⟨name, d, sz, t2⟩]).map (fun f => f.ShortID)) ∧
    GenerateShortID "pgopher" 1700000000 ≠ GenerateShortID "pgopher" 1700000001 := by
  refine ⟨?_, ?_, by decide⟩
  · rintro n _ t _ rfl rfl
    rfl
  · intro name d sz t1 t2
    unfold Catalog.listLocalSalted
    by_cases h : (d = false ∧ IsFileBackup name = true)
    · simp [List.filter_cons, h]
    · simp [List.filter_cons, h]

/-- Witness for the amended C4 at concrete inputs. -/
theorem C4_shortid_amended_witness :
    GenerateShortID "db" 42 = GenerateShortID "db" 42 ∧
    (Catalog.listLocalSalted [⟨"db-a.sql.gz", false, 5, 7⟩]).map
        (fun f => f.ShortID) =
      (Catalog.listLocalSalted [⟨"db-a.sql.gz", false, 5, 8⟩]).map
        (fun f => f.ShortID) :=
  ⟨C4_shortid_amended.1 "db" "db" 42 42 rfl rfl,
   C4_shortid_amended.2.1 "db-a.sql.gz" false 5 7 8⟩

/-! ## Retention scope theorems -/

/-- A star-free literal pattern prefix is matched verbatim: a successful
glob match of lit ++ pat against a name splits the name as lit followed by a
remainder matching pat. -/
theorem globMatchAux_literal (lit : List Char) :
    ∀ (pat name : List Char) (fuel : Nat), '*' ∉ lit →
      globMatchAux fuel (lit ++ pat) name = true →
      ∃ t fuel2, name = lit ++ t ∧ globMatchAux fuel2 pat t = true := by
  induction lit with
  | nil =>
    intro pat name fuel _ hm
    exact ⟨name, fuel, rfl, hm⟩
  | cons c lit ih =>
    intro pat name fuel hstar hm
    have hc : ¬ c = '*' := fun h => hstar (h ▸ List.mem_cons_self c lit)
    have hlit : '*' ∉ lit := fun h => hstar (List.mem_cons_of_mem c h)
    cases fuel with
    | zero => simp [globMatchAux] at hm
    | succ f =>
      cases name with
      | nil =>
        rw [List.cons_append] at hm
        simp [globMatchAux, if_neg hc] at hm
      | cons x ns =>
        rw [List.cons_append] at hm
        simp only [globMatchAux, if_neg hc] at hm
        rw [Bool.and_eq_true] at hm
        obtain ⟨hcx, hrest⟩ := hm
        rw [decide_eq_true_iff] at hcx
        obtain ⟨t, f2, rfl, hp⟩ := ih pat ns f hlit hrest
        exact ⟨t, f2, by rw [hcx, List.cons_append], hp⟩

/-- A name matching the retention glob pattern starts with the database name
followed by a dash. -/
theorem retentionPattern_match_dash (dbName : String) (name : List Char)
    (hstar : '*' ∉ dbName.data)
    (hm : globMatch (retentionPattern dbName) name = true) :
    ∃ t, name = dbName.data ++ '-' :: t := by
  unfold globMatch at hm
  have hre : retentionPattern dbName =
      (dbName.data ++ ['-']) ++ ('*' :: (".sql.gz").data ++ ['*']) := by
    unfold retentionPattern
    simp
  rw [hre] at hm
  have hl : '*' ∉ dbName.data ++ ['-'] := by
    intro h
    rcases List.mem_append.mp h with h | h
    · exact hstar h
    · simp at h
  obtain ⟨t, _, hname, _⟩ := globMatchAux_literal (dbName.data ++ ['-']) _ name _ hl hm
  exact ⟨t, by rw [hname]; simp⟩

/-- Insertion into the modification-time order only rearranges elements. -/
theorem mem_insertByModTime (b x : Retention.BackupFile)
    (l : List Retention.BackupFile) (h : x ∈ insertByModTime b l) :
    x = b ∨ x ∈ l := by
  induction l with
  | nil => simpa [insertByModTime] using h
  | cons a l ih =>
    unfold insertByModTime at h
    split at h
    · rcases List.mem_cons.mp h with h | h
      · exact Or.inr (List.mem_cons.mpr (Or.inl h))
      · rcases ih h with h | h
        · exact Or.inl h
        · exact Or.inr (List.mem_cons.mpr (Or.inr h))
    · rcases List.mem_cons.mp h with h | h
      · exact Or.inl h
      · exact Or.inr h

/-- Sorting by modification time only rearranges elements. -/
theorem mem_sortByModTime (x : Retention.BackupFile)
    (l : List Retention.BackupFile) (h : x ∈ sortByModTime l) : x ∈ l := by
  induction l with
  | nil => simp [sortByModTime] at h
  | cons a l ih =>
    unfold sortByModTime at h
    rcases mem_insertByModTime a x _ h with h | h
    · rw [h]; exact List.mem_cons_self a l
    · exact List.mem_cons.mpr (Or.inr (ih h))

/-- Count-based pruning removes only discovered candidates. -/
theorem mem_cleanByCount (ok : String → Bool) (bs : List Retention.BackupFile)
    (m : Int) (b : Retention.BackupFile)
    (h : b ∈ Retention.cleanByCount ok bs m) : b ∈ bs := by
  unfold Retention.cleanByCount at h
  split at h
  · simp at h
  · exact List.take_subset _ _ (List.mem_filter.mp h).1

/-- Age-based pruning removes only discovered candidates. -/
theorem mem_cleanByDays (ok : String → Bool) (bs : List Retention.BackupFile)
    (d now : Int) (b : Retention.BackupFile)
    (h : b ∈ Retention.cleanByDays ok bs d now) : b ∈ bs := by
  simp only [Retention.cleanByDays] at h
  split at h
  · simp at h
  · exact (List.mem_filter.mp (List.mem_filter.mp h).1).1

/-- C10: every file a retention run removes lies in the configured output
directory and its base name matches the glob databaseName-*.sql.gz*; in
particular the base name starts with the database name and a dash, so the
fixed remote-staging names databaseName.sql.gz and databaseName.sql.gz.age
are never removed. -/
theorem C10_retention_scope (opt : Retention.Options) (listing : List FsFile)
    (ok : String → Bool) (now : Int) (b : Retention.BackupFile)
    (hstar : '*' ∉ opt.DatabaseName.data)
    (hb : b ∈ Retention.run opt listing ok now) :
    ∃ nm, (∃ f ∈ listing, f.name = nm) ∧
      b.Path = opt.OutputDir ++ "/" ++ nm ∧
      globMatch (retentionPattern opt.DatabaseName) nm.data = true ∧
      (∃ t, nm.data = opt.DatabaseName.data ++ '-' :: t) ∧
      nm ≠ opt.DatabaseName ++ ".sql.gz" ∧
      nm ≠ opt.DatabaseName ++ ".sql.gz.age" := by
  have hfb : b ∈ Retention.findBackups opt listing := by
    simp only [Retention.run] at hb
    split at hb
    · simp at hb
    · split at hb
      · simp at hb
      · cases hMB : opt.Retention.MaxBackups with
        | some m =>
          rw [hMB] at hb
          exact mem_cleanByCount _ _ _ _ hb
        | none =>
          rw [hMB] at hb
          cases hRD : opt.Retention.RetentionDays with
          | some d =>
            rw [hRD] at hb
            exact mem_cleanByDays _ _ _ _ _ hb
          | none =>
            rw [hRD] at hb
            simp at hb
  simp only [Retention.findBackups] at hfb
  have hfb2 := mem_sortByModTime _ _ hfb
  obtain ⟨f, hfmem, hfeq⟩ := List.mem_map.mp hfb2
  obtain ⟨hflist, hfglob⟩ := List.mem_filter.mp hfmem
  obtain ⟨t, hpre⟩ :=
    retentionPattern_match_dash opt.DatabaseName f.name.data hstar hfglob
  have hsql : (".sql.gz").data = '.' :: ['s', 'q', 'l', '.', 'g', 'z'] := rfl
  have hsqlage : (".sql.gz.age").data =
      '.' :: ['s', 'q', 'l', '.', 'g', 'z', '.', 'a', 'g', 'e'] := rfl
  refine ⟨f.name, ⟨f, hflist, rfl⟩, ?_, hfglob, ⟨t, hpre⟩, ?_, ?_⟩
  · rw [← hfeq]
    rfl
  · intro he
    have hd : f.name.data = opt.DatabaseName.data ++ (".sql.gz").data := by
      rw [he, String.data_append]
    rw [hpre, hsql] at hd
    have hcons := List.append_cancel_left hd
    injection hcons with h1 _
    exact absurd h1 (by decide)
  · intro he
    have hd : f.name.data = opt.DatabaseName.data ++ (".sql.gz.age").data := by
      rw [he, String.data_append]
    rw [hpre, hsqlage] at hd
    have hcons := List.append_cancel_left hd
    injection hcons with h1 _
    exact absurd h1 (by decide)

/-- Witness for C10: a keep-last-one run over a directory holding two
timestamped backups and the fixed staging name removes a file whose base
name matches the glob; the staging name is untouched. -/
theorem C10_retention_scope_witness :
    ∃ nm, (∃ f ∈ [(⟨"db-1.sql.gz", 10, 5⟩ : FsFile), ⟨"db-2.sql.gz", 20, 5⟩,
        ⟨"db.sql.gz", 5, 5⟩], f.name = nm) ∧
      Retention.BackupFile.Path ⟨"/b/db-1.sql.gz", 10, 5⟩ = "/b" ++ "/" ++ nm ∧
      globMatch (retentionPattern "db") nm.data = true ∧
      (∃ t, nm.data = ("db").data ++ '-' :: t) ∧
      nm ≠ "db" ++ ".sql.gz" ∧
      nm ≠ "db" ++ ".sql.gz.age" :=
  C10_retention_scope ⟨⟨none, some 1⟩, "/b", "db"⟩
    [⟨"db-1.sql.gz", 10, 5⟩, ⟨"db-2.sql.gz", 20, 5⟩, ⟨"db.sql.gz", 5, 5⟩]
    (fun _ => true) 0 ⟨"/b/db-1.sql.gz", 10, 5⟩ (by decide) (by decide)
